import Mathlib

/-!
Verification of the Parameter Builder in `src/manager.py` (ciwcontrol).

The Python source is shallowly embedded below: Python dicts become
insertion-ordered association lists (`List (String × α)`), Python floats
become `ℚ`, raised exceptions become `Except String`, and the networkx
calls (`DiGraph.add_edges_from`, `to_numpy_matrix`) are embedded by their
documented semantics (nodes in insertion order, duplicate directed edges
overwrite the stored attributes, matrix rows/columns indexed by the
graph's node list with weight 0 for missing edges).
-/

set_option maxRecDepth 4000

namespace CiwControl

/-- Distribution descriptor returned by `parse_distribution`: either the
`'NoArrivals'` sentinel string, or the list `[dist, *args]`. -/
inductive Dist where
  | noArrivals : Dist
  | dist : String → List ℚ → Dist
deriving DecidableEq

deriving instance DecidableEq for Except

/-! ### Association lists (embedding of Python `dict`) -/

/-- Python `d[key]` as an `Option`: first entry with the given key.
Our dictionaries keep keys unique, mirroring Python dicts. -/
def dlookup {α : Type} : List (String × α) → String → Option α
  | [], _ => none
  | p :: rest, key => if p.1 = key then some p.2 else dlookup rest key

/-- Python `key in d.keys()`. -/
def hasKey {α : Type} (d : List (String × α)) (key : String) : Bool :=
  d.any (fun p => p.1 = key)

/-- Python `d[k] = v`: update in place if the key exists (keeping its
position, as Python dicts do), otherwise append a new entry. -/
def dictInsert {α : Type} (d : List (String × α)) (k : String) (v : α) :
    List (String × α) :=
  if hasKey d k then d.map (fun p => if p.1 = k then (p.1, v) else p)
  else d ++ [(k, v)]

/-- Builds a dict from a pair list left to right (Python `dict(pairs)`). -/
def dictZipAux {α : Type} (d : List (String × α)) :
    List (String × α) → List (String × α)
  | [] => d
  | p :: rest => dictZipAux (dictInsert d p.1 p.2) rest

/-- Python `dict(zip(ks, vs))`. -/
def dictZip {α : Type} (ks : List String) (vs : List α) : List (String × α) :=
  dictZipAux [] (List.zip ks vs)

/-- `List.mapM` over `Except` written by structural recursion (Python
`list(map(f, xs))` where `f` may raise, and monadic loops). -/
def mapME {α β : Type} (f : α → Except String β) : List α → Except String (List β)
  | [] => Except.ok []
  | a :: as =>
    match f a with
    | Except.error e => Except.error e
    | Except.ok b =>
      match mapME f as with
      | Except.error e => Except.error e
      | Except.ok bs => Except.ok (b :: bs)

/-! ### String splitting and float literals

Python `s.split(' ')` splits at every single space, keeping empty
segments; `float(tok)` is modelled for the decimal literals the tool
consumes (optional sign, digits, optional fractional part) — scientific
notation is not modelled. -/

/-- Split a character list at every occurrence of `sep` (Python
`s.split(sep)` for a single-character separator: always at least one
segment, empty segments kept). -/
def splitChar (sep : Char) : List Char → List (List Char)
  | [] => [[]]
  | c :: rest =>
    if c = sep then [] :: splitChar sep rest
    else
      match splitChar sep rest with
      | [] => [[c]]
      | w :: ws => (c :: w) :: ws

/-- Decimal digits to a natural number. -/
def digitsToNat (cs : List Char) : Nat :=
  cs.foldl (fun n c => 10 * n + (c.toNat - 48)) 0

/-- Unsigned decimal literal: `"12"`, `"1.5"`, `".5"`, `"1."`. -/
def parseFloatPos (cs : List Char) : Option ℚ :=
  match splitChar '.' cs with
  | [ip] =>
    if ip ≠ [] ∧ ip.all Char.isDigit then some ((digitsToNat ip : ℚ)) else none
  | [ip, fp] =>
    if ip ++ fp ≠ [] ∧ (ip ++ fp).all Char.isDigit then
      some ((digitsToNat ip : ℚ) + (digitsToNat fp : ℚ) / ((10 : ℚ) ^ fp.length))
    else none
  | _ => none

/-- Python `float(s)` restricted to plain decimal literals. -/
def parseFloat (s : String) : Option ℚ :=
  match s.toList with
  | '-' :: rest => (parseFloatPos rest).map (fun q => -q)
  | cs => parseFloatPos cs

/-- Python `s.split(' ')`. -/
def splitSpace (s : String) : List String :=
  (splitChar ' ' s.toList).map (fun cs => String.mk cs)

/-! ### `parse_distribution` -/

/-- The `distributions` registry: name to required argument count. -/
def distributions : List (String × Nat) :=
  [("Exponential", 1), ("Uniform", 2), ("Deterministic", 1), ("Triangular", 3),
   ("Gamma", 2), ("Lognormal", 2), ("Weibull", 1), ("NoArrivals", 0)]

def unsupportedDistMsg (dist : String) : String :=
  "Unsupported distribution " ++ dist

def argCountMsg (dist : String) (want got : Nat) : String :=
  dist ++ " distribution supports " ++ toString want ++ " argument(s) (" ++
    toString got ++ " given)"

def floatErrMsg : String := "could not convert string to float"

/-- `parse_distribution` (src/manager.py lines 15-37). -/
def parseDistribution (s : String) : Except String Dist :=
  let segments := splitSpace s
  let dist := segments.headD ""
  let args := segments.tail
  match dlookup distributions dist with
  | none => Except.error (unsupportedDistMsg dist)
  | some nargs =>
    if args.length ≠ nargs then
      Except.error (argCountMsg dist nargs args.length)
    else
      match args.mapM parseFloat with
      | none => Except.error floatErrMsg
      | some fargs =>
        if dist = "NoArrivals" then Except.ok Dist.noArrivals
        else Except.ok (Dist.dist dist fargs)

/-! ### `parse_connections` -/

/-- One routing target from the input: `{'target': ..., 'prob': ...}`. -/
structure Target where
  target : String
  prob : ℚ
deriving DecidableEq

/-- Edge record `(source name, target name, probability)`. -/
abbrev Edge := String × String × ℚ

def probOverflowMsg (name : String) : String :=
  "Total probabilty cannot exceed 1 for any customer class (Issue in node: " ++
    name ++ ")"

/-- `parse_connections` (src/manager.py lines 39-54): accumulate the total
probability and the edge triples, then fail when the total exceeds 1. -/
def parseConnections (connections : List Target) (current_name : String) :
    Except String (List Edge) :=
  let total_prob := (connections.map (fun c => c.prob)).sum
  let connect := connections.map (fun c => (current_name, c.target, c.prob))
  if 1 < total_prob then Except.error (probOverflowMsg current_name)
  else Except.ok connect

/-! ### `parse_customers` -/

/-- One customer-class entry at a station. `dist`, `service` and
`connections` are `Option`s because the corresponding Python dict keys
may be absent (an absent key raises `KeyError` when accessed). -/
structure Customer where
  cls : Int
  dist : Option String
  service : Option String
  connections : Option (List Target)
deriving DecidableEq

/-- The class key `'Class %i' % customer['class']`. -/
def classKey (c : Customer) : String := "Class " ++ toString c.cls

/-- The arrival distribution of one customer entry: `parse_distribution`
wrapped in the bare `try/except` that substitutes `'NoArrivals'` on any
failure, including an absent `'dist'` key. -/
def parseArrival (c : Customer) : Dist :=
  match c.dist with
  | none => Dist.noArrivals
  | some s =>
    match parseDistribution s with
    | Except.ok d => d
    | Except.error _ => Dist.noArrivals

def keyErrMsg (k : String) : String := "KeyError: " ++ k

/-- The service distribution of one customer entry: parsed strictly, an
absent `'service'` key raises. -/
def parseService (c : Customer) : Except String Dist :=
  match c.service with
  | none => Except.error (keyErrMsg "service")
  | some s => parseDistribution s

/-- The connection list of one customer entry: `parse_connections` when a
`'connections'` key is present, otherwise the empty list. -/
def parseConnsOf (c : Customer) (name : String) : Except String (List Edge) :=
  match c.connections with
  | none => Except.ok []
  | some cs => parseConnections cs name

/-- The loop body of `parse_customers`: the four accumulated lists
`keys`, `dists`, `serv_dists`, `connections`. -/
def parseCustomerLists (name : String) :
    List Customer →
      Except String (List String × List Dist × List Dist × List (List Edge))
  | [] => Except.ok ([], [], [], [])
  | c :: rest =>
    match parseService c with
    | Except.error e => Except.error e
    | Except.ok sv =>
      match parseConnsOf c name with
      | Except.error e => Except.error e
      | Except.ok cn =>
        match parseCustomerLists name rest with
        | Except.error e => Except.error e
        | Except.ok r =>
          Except.ok (classKey c :: r.1, parseArrival c :: r.2.1,
                     sv :: r.2.2.1, cn :: r.2.2.2)

/-- Result of `parse_customers`: the three per-class dicts. -/
structure StationDists where
  arrival : List (String × Dist)
  service : List (String × Dist)
  connections : List (String × List Edge)

/-- `parse_customers` (src/manager.py lines 56-86). -/
def parseCustomers (customers : List Customer) (current_name : String) :
    Except String StationDists :=
  match parseCustomerLists current_name customers with
  | Except.error e => Except.error e
  | Except.ok r =>
    Except.ok { arrival := dictZip r.1 r.2.1, service := dictZip r.1 r.2.2.1,
                connections := dictZip r.1 r.2.2.2 }

/-! ### `parse_station` -/

/-- A station record from the decoded input. -/
structure Station where
  name : String
  capacity : Int
  servers : Int
  customers : List Customer
deriving DecidableEq

/-- The per-station `params` dict built by `parse_station`. -/
structure Node where
  name : String
  capacity : Int
  arrivals : List (String × Dist)
  service : List (String × Dist)
  servers : Int
  connections : List (String × List Edge)
deriving DecidableEq

/-- `parse_station` (src/manager.py lines 88-102). -/
def parseStation (station : Station) : Except String Node :=
  match parseCustomers station.customers station.name with
  | Except.error e => Except.error e
  | Except.ok dists =>
    Except.ok { name := station.name, capacity := station.capacity,
                arrivals := dists.arrival, service := dists.service,
                servers := station.servers, connections := dists.connections }

/-! ### `update_distributions` and `update_connections` -/

/-- The first loop of `update_distributions`: for each key of the new
dict, initialise a fresh key with `current_node - 1` copies of
`'NoArrivals'`, then append the new value. -/
def updatePhase1 (existing : List (String × List Dist)) (k : Nat) :
    List (String × Dist) → List (String × List Dist)
  | [] => existing
  | p :: rest =>
    updatePhase1
      ((if hasKey existing p.1 then existing
        else existing ++ [(p.1, List.replicate (k - 1) Dist.noArrivals)]).map
        (fun q => if q.1 = p.1 then (q.1, q.2 ++ [p.2]) else q)) k rest

/-- The second loop of `update_distributions`: append one `'NoArrivals'`
to every list whose length differs from the current node index. -/
def updatePhase2 : List (String × List Dist) → Nat → List (String × List Dist)
  | [], _ => []
  | q :: rest, k =>
    (if q.2.length ≠ k then (q.1, q.2 ++ [Dist.noArrivals]) else q) ::
      updatePhase2 rest k

/-- `update_distributions` (src/manager.py lines 104-138). -/
def updateDistributions (existing : List (String × List Dist))
    (new : List (String × Dist)) (current_node : Nat) :
    List (String × List Dist) :=
  updatePhase2 (updatePhase1 existing current_node new) current_node

/-- Helper for stating loop invariants: `update_distributions` threaded
over the per-station dicts the way `build_params` threads it, with
`start` stations already processed. -/
def foldDistributions (init : List (String × List Dist))
    (maps : List (List (String × Dist))) (start : Nat) :
    List (String × List Dist) :=
  match maps with
  | [] => init
  | m :: rest => foldDistributions (updateDistributions init m (start + 1)) rest (start + 1)

/-- `update_connections` (src/manager.py lines 140-151). -/
def updateConnections (existing : List (String × List Edge)) :
    List (String × List Edge) → List (String × List Edge)
  | [] => existing
  | p :: rest =>
    let ex1 :=
      if hasKey existing p.1 then
        existing.map (fun q => if q.1 = p.1 then (q.1, q.2 ++ p.2) else q)
      else existing ++ [p]
    updateConnections ex1 rest

/-! ### The networkx calls

`nx.DiGraph` keeps its nodes in insertion order; `add_edges_from` on a
(simple) `DiGraph` overwrites the attribute dict of an already present
directed edge, so a duplicate `(u, v)` pair keeps only the last weight.
`nx.to_numpy_matrix` renders the adjacency matrix with rows and columns
indexed by the graph's node list and 0.0 for absent edges. -/

structure DiGraph where
  nodeList : List Nat
  edgeList : List (Nat × Nat × ℚ)

def emptyGraph : DiGraph := { nodeList := [], edgeList := [] }

def addNode (g : DiGraph) (n : Nat) : DiGraph :=
  if g.nodeList.contains n then g
  else { g with nodeList := g.nodeList ++ [n] }

def addEdge (g : DiGraph) (u v : Nat) (w : ℚ) : DiGraph :=
  let g1 := addNode (addNode g u) v
  if g1.edgeList.any (fun e => e.1 = u ∧ e.2.1 = v) then
    { g1 with
      edgeList := g1.edgeList.map
        (fun e => if e.1 = u ∧ e.2.1 = v then (u, v, w) else e) }
  else { g1 with edgeList := g1.edgeList ++ [(u, v, w)] }

def addEdgesFrom (g : DiGraph) : List (Nat × Nat × ℚ) → DiGraph
  | [] => g
  | e :: rest => addEdgesFrom (addEdge g e.1 e.2.1 e.2.2) rest

def edgeWeight (g : DiGraph) (u v : Nat) : ℚ :=
  match g.edgeList.find? (fun e => e.1 = u ∧ e.2.1 = v) with
  | some e => e.2.2
  | none => 0

def toNumpyMatrix (g : DiGraph) : List (List ℚ) :=
  g.nodeList.map (fun u => g.nodeList.map (fun v => edgeWeight g u v))

/-! ### `build_params` -/

def dupNameMsg (name : String) : String :=
  "A node with the name " ++ name ++
    " has already been defined! Please use unique node names"

/-- The mutable state threaded through the per-station loop of
`build_params`. -/
structure BuildState where
  currentNode : Nat
  namesToNodes : List (String × Nat)
  servers : List Int
  capacities : List Int
  arrivals : List (String × List Dist)
  service : List (String × List Dist)
  connections : List (String × List Edge)

/-- The per-station loop of `build_params` (src/manager.py lines 180-203). -/
def buildLoop : List Station → BuildState → Except String BuildState
  | [], st => Except.ok st
  | station :: rest, st =>
    match parseStation station with
    | Except.error e => Except.error e
    | Except.ok node =>
      if hasKey st.namesToNodes node.name then
        Except.error (dupNameMsg node.name)
      else
        buildLoop rest
          { currentNode := st.currentNode + 1,
            namesToNodes := st.namesToNodes ++ [(node.name, st.currentNode + 1)],
            servers := st.servers ++ [node.servers],
            capacities := st.capacities ++ [node.capacity],
            arrivals := updateDistributions st.arrivals node.arrivals
              (st.currentNode + 1),
            service := updateDistributions st.service node.service
              (st.currentNode + 1),
            connections := updateConnections st.connections node.connections }

/-- Python `names_to_nodes[name]`: raises `KeyError` on a missing key. -/
def lookupNode (namesToNodes : List (String × Nat)) (name : String) :
    Except String Nat :=
  match dlookup namesToNodes name with
  | none => Except.error (keyErrMsg name)
  | some n => Except.ok n

/-- One iteration of the matrix loop of `build_params` (lines 209-227):
translate names to node numbers, feed networkx, or emit the all-zero
`num_nodes × num_nodes` matrix when the class has no edges. -/
def buildMatrix (numNodes : Nat) (namesToNodes : List (String × Nat))
    (c : List Edge) : Except String (List (List ℚ)) :=
  if 0 < c.length then
    match mapME (fun t =>
      match lookupNode namesToNodes t.1 with
      | Except.error e => Except.error e
      | Except.ok u =>
        match lookupNode namesToNodes t.2.1 with
        | Except.error e => Except.error e
        | Except.ok v => Except.ok (u, v, t.2.2)) c with
    | Except.error e => Except.error e
    | Except.ok es => Except.ok (toNumpyMatrix (addEdgesFrom emptyGraph es))
  else
    Except.ok (List.replicate numNodes (List.replicate numNodes (0 : ℚ)))

/-- The matrix loop over the keys of the final `connections` dict. -/
def buildMatrices (numNodes : Nat) (namesToNodes : List (String × Nat)) :
    List (String × List Edge) → Except String (List (String × List (List ℚ)))
  | [] => Except.ok []
  | p :: rest =>
    match buildMatrix numNodes namesToNodes p.2 with
    | Except.error e => Except.error e
    | Except.ok m =>
      match buildMatrices numNodes namesToNodes rest with
      | Except.error e => Except.error e
      | Except.ok ms => Except.ok ((p.1, m) :: ms)

/-- The final Ciw parameter dictionary. -/
structure Params where
  arrivalDistributions : List (String × List Dist)
  numberOfNodes : Nat
  numberOfServers : List Int
  queueCapacities : List Int
  serviceDistributions : List (String × List Dist)
  transitionMatrices : List (String × List (List ℚ))

/-- `build_params` (src/manager.py lines 154-232). -/
def buildParams (stations : List Station) : Except String Params :=
  match buildLoop stations
      { currentNode := 0, namesToNodes := [], servers := [], capacities := [],
        arrivals := [], service := [], connections := [] } with
  | Except.error e => Except.error e
  | Except.ok st =>
    match buildMatrices stations.length st.namesToNodes st.connections with
    | Except.error e => Except.error e
    | Except.ok ms =>
      Except.ok { arrivalDistributions := st.arrivals,
                  numberOfNodes := stations.length,
                  numberOfServers := st.servers,
                  queueCapacities := st.capacities,
                  serviceDistributions := st.service,
                  transitionMatrices := ms }

/-! ## Association-list lemmas -/

theorem dlookup_nil {α : Type} (key : String) :
    dlookup ([] : List (String × α)) key = none := rfl

theorem dlookup_cons {α : Type} (p : String × α) (d : List (String × α))
    (key : String) :
    dlookup (p :: d) key = if p.1 = key then some p.2 else dlookup d key := rfl

theorem hasKey_eq_isSome {α : Type} (d : List (String × α)) (key : String) :
    hasKey d key = (dlookup d key).isSome := by
  induction d with
  | nil => rfl
  | cons p rest ih =>
    simp only [hasKey, List.any_cons, dlookup_cons]
    by_cases h : p.1 = key
    · simp [h]
    · simp only [h, decide_False, Bool.false_or, if_neg h]
      simpa [hasKey] using ih

theorem hasKey_iff_mem_keys {α : Type} (d : List (String × α)) (key : String) :
    hasKey d key = true ↔ key ∈ d.map Prod.fst := by
  simp [hasKey, List.any_eq_true]

theorem dlookup_eq_none_of_hasKey_false {α : Type} (d : List (String × α))
    (key : String) (h : hasKey d key = false) : dlookup d key = none := by
  rw [hasKey_eq_isSome] at h
  cases hd : dlookup d key with
  | none => rfl
  | some v => rw [hd] at h; simp at h

theorem dlookup_append {α : Type} (d e : List (String × α)) (key : String) :
    dlookup (d ++ e) key =
      match dlookup d key with
      | some v => some v
      | none => dlookup e key := by
  induction d with
  | nil => simp [dlookup_nil]
  | cons p rest ih =>
    by_cases h : p.1 = key
    · simp [dlookup_cons, h]
    · simpa [dlookup_cons, h] using ih

theorem dlookup_mem {α : Type} (d : List (String × α)) (key : String) (v : α)
    (h : dlookup d key = some v) : (key, v) ∈ d := by
  induction d with
  | nil => simp [dlookup_nil] at h
  | cons p rest ih =>
    obtain ⟨a, b⟩ := p
    rw [dlookup_cons] at h
    by_cases hp : (a, b).1 = key
    · rw [if_pos hp] at h
      have hb : b = v := Option.some.inj h
      have ha : a = key := hp
      subst hb
      subst ha
      exact List.mem_cons_self _ _
    · rw [if_neg hp] at h
      exact List.mem_cons_of_mem _ (ih h)

theorem dlookup_of_mem {α : Type} (d : List (String × α)) (p : String × α)
    (hnd : (d.map Prod.fst).Nodup) (hp : p ∈ d) : dlookup d p.1 = some p.2 := by
  induction d with
  | nil => cases hp
  | cons q rest ih =>
    simp only [List.map_cons, List.nodup_cons] at hnd
    rcases List.mem_cons.mp hp with h | h
    · subst h
      simp [dlookup_cons]
    · have hq : q.1 ≠ p.1 := by
        intro he
        exact hnd.1 (he ▸ List.mem_map_of_mem Prod.fst h)
      rw [dlookup_cons, if_neg hq]
      exact ih hnd.2 h

/-- Looking up after a Python in-place value update at key `k`. -/
theorem dlookup_map_modify {α : Type} (d : List (String × α)) (k : String)
    (f : α → α) (key : String) :
    dlookup (d.map (fun q => if q.1 = k then (q.1, f q.2) else q)) key =
      if key = k then (dlookup d key).map f else dlookup d key := by
  induction d with
  | nil => simp [dlookup_nil]
  | cons p rest ih =>
    simp only [List.map_cons]
    by_cases hpk : p.1 = k
    · by_cases hpkey : p.1 = key
      · have hkk : key = k := hpkey ▸ hpk
        simp [dlookup_cons, hpk, hpkey, hkk]
      · have hkk : key ≠ k := fun he => hpkey (hpk.trans he.symm)
        have hkk2 : k ≠ key := fun he => hkk he.symm
        simp [dlookup_cons, hpk, hpkey, hkk, hkk2, ih]
    · by_cases hpkey : p.1 = key
      · have hkk : key ≠ k := fun he => hpk (hpkey.trans he)
        simp [dlookup_cons, hpk, hpkey, hkk, ih]
      · simp [dlookup_cons, hpk, hpkey, ih]

theorem keys_map_modify {α : Type} (d : List (String × α)) (k : String)
    (f : α → α) :
    (d.map (fun q => if q.1 = k then (q.1, f q.2) else q)).map Prod.fst =
      d.map Prod.fst := by
  induction d with
  | nil => rfl
  | cons p rest ih =>
    simp only [List.map_cons]
    by_cases hpk : p.1 = k <;> simp [hpk, ih]

theorem nodup_append_singleton {α : Type} (l : List α) (a : α) :
    (l ++ [a]).Nodup ↔ l.Nodup ∧ a ∉ l := by
  constructor
  · intro h
    rw [List.nodup_append] at h
    exact ⟨h.1, fun hm => h.2.2 hm (List.mem_singleton_self a)⟩
  · rintro ⟨h1, h2⟩
    rw [List.nodup_append]
    refine ⟨h1, List.nodup_singleton a, ?_⟩
    intro x hx hxa
    rw [List.mem_singleton.mp hxa] at hx
    exact h2 hx

/-! ### `dictInsert` / `dictZip` lemmas -/

theorem dlookup_dictInsert_self {α : Type} (d : List (String × α)) (k : String)
    (v : α) : dlookup (dictInsert d k v) k = some v := by
  unfold dictInsert
  by_cases h : hasKey d k
  · rw [if_pos h]
    have hm := dlookup_map_modify d k (fun _ => v) k
    rw [if_pos rfl] at hm
    rw [hasKey_eq_isSome] at h
    cases hd : dlookup d k with
    | none => rw [hd] at h; simp at h
    | some w => rw [hm, hd]; rfl
  · rw [if_neg h]
    rw [dlookup_append, dlookup_eq_none_of_hasKey_false d k (by simpa using h)]
    simp [dlookup_cons]

theorem dlookup_dictInsert_ne {α : Type} (d : List (String × α)) (k : String)
    (v : α) (key : String) (hne : key ≠ k) :
    dlookup (dictInsert d k v) key = dlookup d key := by
  unfold dictInsert
  by_cases h : hasKey d k
  · rw [if_pos h]
    have hm := dlookup_map_modify d k (fun _ => v) key
    rw [if_neg hne] at hm
    exact hm
  · rw [if_neg h, dlookup_append]
    have hkne : k ≠ key := fun he => hne he.symm
    cases hd : dlookup d key with
    | some w => rfl
    | none => simp [dlookup_cons, dlookup_nil, hkne]

theorem keys_dictInsert {α : Type} (d : List (String × α)) (k : String) (v : α) :
    (dictInsert d k v).map Prod.fst =
      if hasKey d k then d.map Prod.fst else d.map Prod.fst ++ [k] := by
  unfold dictInsert
  by_cases h : hasKey d k
  · rw [if_pos h, if_pos h]
    exact keys_map_modify d k (fun _ => v)
  · rw [if_neg h, if_neg h]
    simp

theorem nodup_keys_dictInsert {α : Type} (d : List (String × α)) (k : String)
    (v : α) (hnd : (d.map Prod.fst).Nodup) :
    ((dictInsert d k v).map Prod.fst).Nodup := by
  rw [keys_dictInsert]
  by_cases h : hasKey d k
  · rwa [if_pos h]
  · rw [if_neg h, nodup_append_singleton]
    refine ⟨hnd, fun hk => ?_⟩
    rw [← hasKey_iff_mem_keys] at hk
    exact h hk

theorem dictZipAux_append {α : Type} (d : List (String × α))
    (ps qs : List (String × α)) :
    dictZipAux d (ps ++ qs) = dictZipAux (dictZipAux d ps) qs := by
  induction ps generalizing d with
  | nil => rfl
  | cons p rest ih => simp [dictZipAux, ih]

theorem nodup_keys_dictZipAux {α : Type} (d : List (String × α))
    (ps : List (String × α)) (hnd : (d.map Prod.fst).Nodup) :
    ((dictZipAux d ps).map Prod.fst).Nodup := by
  induction ps generalizing d with
  | nil => exact hnd
  | cons p rest ih => exact ih _ (nodup_keys_dictInsert _ _ _ hnd)

theorem hasKey_dictInsert {α : Type} (d : List (String × α)) (k : String)
    (v : α) (key : String) :
    hasKey (dictInsert d k v) key = (hasKey d key || (k = key)) := by
  rw [hasKey_eq_isSome, hasKey_eq_isSome]
  by_cases h : key = k
  · subst h
    rw [dlookup_dictInsert_self]
    simp
  · rw [dlookup_dictInsert_ne _ _ _ _ h]
    have hkne : k ≠ key := fun he => h he.symm
    simp [hkne]

theorem hasKey_dictZipAux {α : Type} (d : List (String × α))
    (ps : List (String × α)) (key : String) :
    hasKey (dictZipAux d ps) key =
      (hasKey d key || ps.any (fun p => p.1 = key)) := by
  induction ps generalizing d with
  | nil => simp [dictZipAux]
  | cons p rest ih =>
    simp only [dictZipAux, List.any_cons]
    rw [ih, hasKey_dictInsert]
    by_cases h : p.1 = key <;> simp [h]

theorem nodup_keys_dictZip {α : Type} (ks : List String) (vs : List α) :
    ((dictZip ks vs).map Prod.fst).Nodup :=
  nodup_keys_dictZipAux _ _ (by simp)

theorem hasKey_dictZip {α : Type} (ks : List String) (vs : List α)
    (key : String) :
    hasKey (dictZip ks vs) key = (List.zip ks vs).any (fun p => p.1 = key) := by
  unfold dictZip
  rw [hasKey_dictZipAux]
  rfl

theorem dlookup_dictZip_last {α : Type} (ks : List String) (vs : List α)
    (k : String) (v : α) (hlen : ks.length = vs.length) :
    dlookup (dictZip (ks ++ [k]) (vs ++ [v])) k = some v := by
  unfold dictZip
  rw [List.zip_append hlen, dictZipAux_append]
  exact dlookup_dictInsert_self _ _ _

/-! ## `update_distributions` characterization -/

theorem dlookup_updatePhase2 (d : List (String × List Dist)) (k : Nat)
    (key : String) :
    dlookup (updatePhase2 d k) key =
      (dlookup d key).map
        (fun seq => if seq.length ≠ k then seq ++ [Dist.noArrivals] else seq) := by
  induction d with
  | nil => rfl
  | cons p rest ih =>
    by_cases hl : p.2.length ≠ k
    · by_cases hp : p.1 = key <;> simp [updatePhase2, dlookup_cons, hp, hl, ih]
    · have hl2 : p.2.length = k := not_not.mp hl
      by_cases hp : p.1 = key <;>
        simp [updatePhase2, dlookup_cons, hp, hl2, ih]

theorem keys_updatePhase2 (d : List (String × List Dist)) (k : Nat) :
    (updatePhase2 d k).map Prod.fst = d.map Prod.fst := by
  induction d with
  | nil => rfl
  | cons p rest ih =>
    by_cases hl : p.2.length ≠ k <;> simp [updatePhase2, hl, ih]

theorem dlookup_updatePhase1 (k : Nat) (key : String)
    (new : List (String × Dist)) (existing : List (String × List Dist))
    (hnew : (new.map Prod.fst).Nodup) :
    dlookup (updatePhase1 existing k new) key =
      match dlookup new key with
      | some v =>
        some ((dlookup existing key).getD
          (List.replicate (k - 1) Dist.noArrivals) ++ [v])
      | none => dlookup existing key := by
  induction new generalizing existing with
  | nil => simp [updatePhase1, dlookup_nil]
  | cons p rest ih =>
    simp only [List.map_cons, List.nodup_cons] at hnew
    rw [updatePhase1, ih _ hnew.2]
    have hex2 : ∀ key2 : String,
        dlookup ((if hasKey existing p.1 then existing
          else existing ++
            [(p.1, List.replicate (k - 1) Dist.noArrivals)]).map
          (fun q => if q.1 = p.1 then (q.1, q.2 ++ [p.2]) else q)) key2 =
          if key2 = p.1 then
            some ((dlookup existing key2).getD
              (List.replicate (k - 1) Dist.noArrivals) ++ [p.2])
          else dlookup existing key2 := by
      intro key2
      have hmm :
          dlookup ((if hasKey existing p.1 then existing
            else existing ++
              [(p.1, List.replicate (k - 1) Dist.noArrivals)]).map
            (fun q => if q.1 = p.1 then (q.1, q.2 ++ [p.2]) else q)) key2 =
            if key2 = p.1 then
              (dlookup (if hasKey existing p.1 then existing
                else existing ++
                  [(p.1, List.replicate (k - 1) Dist.noArrivals)]) key2).map
                (fun s => s ++ [p.2])
            else
              dlookup (if hasKey existing p.1 then existing
                else existing ++
                  [(p.1, List.replicate (k - 1) Dist.noArrivals)]) key2 :=
        dlookup_map_modify _ p.1 (fun s => s ++ [p.2]) key2
      rw [hmm]
      by_cases hk2 : key2 = p.1
      · rw [if_pos hk2, if_pos hk2]
        by_cases hhk : hasKey existing p.1
        · rw [if_pos hhk]
          have := hhk
          rw [hasKey_eq_isSome] at this
          cases hd : dlookup existing key2 with
          | none => rw [hk2] at hd; rw [hd] at this; simp at this
          | some seq => simp [hd]
        · rw [if_neg hhk, dlookup_append,
            dlookup_eq_none_of_hasKey_false existing key2
              (by rw [hk2]; simpa using hhk)]
          have hd2 : dlookup existing key2 = none :=
            dlookup_eq_none_of_hasKey_false existing key2
              (by rw [hk2]; simpa using hhk)
          simp [dlookup_cons, dlookup_nil, hk2, hd2]
      · rw [if_neg hk2, if_neg hk2]
        by_cases hhk : hasKey existing p.1
        · rw [if_pos hhk]
        · rw [if_neg hhk, dlookup_append]
          cases hd : dlookup existing key2 with
          | some seq => rfl
          | none =>
            have hne : p.1 ≠ key2 := fun he => hk2 he.symm
            simp [dlookup_cons, dlookup_nil, hne]
    by_cases hpk : p.1 = key
    · have hkey : key = p.1 := hpk.symm
      have hrest : dlookup rest key = none := by
        apply dlookup_eq_none_of_hasKey_false
        cases hhr : hasKey rest key with
        | false => rfl
        | true =>
          exact absurd (hpk ▸ (hasKey_iff_mem_keys rest key).mp hhr) hnew.1
      rw [hrest, hex2 key, if_pos hkey, dlookup_cons, if_pos hpk]
    · have hkey : ¬ key = p.1 := fun he => hpk he.symm
      rw [hex2 key, if_neg hkey, dlookup_cons, if_neg hpk]

theorem nodup_keys_updatePhase1 (k : Nat) (new : List (String × Dist))
    (existing : List (String × List Dist))
    (hex : (existing.map Prod.fst).Nodup) :
    ((updatePhase1 existing k new).map Prod.fst).Nodup := by
  induction new generalizing existing with
  | nil => exact hex
  | cons p rest ih =>
    rw [updatePhase1]
    apply ih
    have hkeys :
        ((if hasKey existing p.1 then existing
          else existing ++
            [(p.1, List.replicate (k - 1) Dist.noArrivals)]).map
          (fun q => if q.1 = p.1 then (q.1, q.2 ++ [p.2]) else q)).map Prod.fst =
          (if hasKey existing p.1 then existing
            else existing ++
              [(p.1, List.replicate (k - 1) Dist.noArrivals)]).map Prod.fst :=
      keys_map_modify _ p.1 (fun s => s ++ [p.2])
    rw [hkeys]
    by_cases hhk : hasKey existing p.1
    · rwa [if_pos hhk]
    · rw [if_neg hhk]
      simp only [List.map_append, List.map_cons, List.map_nil]
      rw [nodup_append_singleton]
      refine ⟨hex, fun hm => ?_⟩
      rw [← hasKey_iff_mem_keys] at hm
      exact hhk hm

theorem nodup_keys_updateDistributions (existing : List (String × List Dist))
    (new : List (String × Dist)) (k : Nat)
    (hex : (existing.map Prod.fst).Nodup) :
    ((updateDistributions existing new k).map Prod.fst).Nodup := by
  unfold updateDistributions
  rw [keys_updatePhase2]
  exact nodup_keys_updatePhase1 k new existing hex

/-- Full description of one `update_distributions` call, assuming every
sequence already in `existing` has length `c` (the number of stations
already processed) and the station dict `new` has unique keys. -/
theorem dlookup_updateDistributions (existing : List (String × List Dist))
    (new : List (String × Dist)) (c : Nat) (key : String)
    (hnew : (new.map Prod.fst).Nodup)
    (hlen : ∀ k2 s2, dlookup existing k2 = some s2 → s2.length = c) :
    dlookup (updateDistributions existing new (c + 1)) key =
      match dlookup existing key, dlookup new key with
      | some seq, some v => some (seq ++ [v])
      | some seq, none => some (seq ++ [Dist.noArrivals])
      | none, some v => some (List.replicate c Dist.noArrivals ++ [v])
      | none, none => none := by
  unfold updateDistributions
  rw [dlookup_updatePhase2, dlookup_updatePhase1 (c + 1) key new existing hnew]
  have hc : c + 1 - 1 = c := by omega
  rw [hc]
  cases he : dlookup existing key with
  | some seq =>
    have hseq : seq.length = c := hlen key seq he
    cases hn : dlookup new key with
    | some v => simp [he, hseq]
    | none =>
      have : seq.length ≠ c + 1 := by omega
      simp [he, hseq, this]
  | none =>
    cases hn : dlookup new key with
    | some v => simp [he]
    | none => simp [he]

theorem length_updateDistributions (existing : List (String × List Dist))
    (new : List (String × Dist)) (c : Nat)
    (hnew : (new.map Prod.fst).Nodup)
    (hlen : ∀ k2 s2, dlookup existing k2 = some s2 → s2.length = c) :
    ∀ key seq, dlookup (updateDistributions existing new (c + 1)) key = some seq →
      seq.length = c + 1 := by
  intro key seq h
  rw [dlookup_updateDistributions existing new c key hnew hlen] at h
  cases he : dlookup existing key with
  | some s =>
    have hs : s.length = c := hlen key s he
    cases hn : dlookup new key with
    | some v =>
      rw [he, hn] at h
      cases h
      simp [hs]
    | none =>
      rw [he, hn] at h
      cases h
      simp [hs]
  | none =>
    cases hn : dlookup new key with
    | some v =>
      rw [he, hn] at h
      cases h
      simp
    | none => rw [he, hn] at h; cases h

/-- Full description of `update_distributions` threaded over a list of
per-station dicts: a key ends up present exactly when some station dict
mentions it, and its sequence is the per-station value with
`'NoArrivals'` wherever a station omits the key. -/
theorem dlookup_foldDistributions (maps : List (List (String × Dist)))
    (init : List (String × List Dist)) (start : Nat) (key : String)
    (hinit : ∀ k2 s2, dlookup init k2 = some s2 → s2.length = start)
    (hmaps : ∀ m ∈ maps, (m.map Prod.fst).Nodup) :
    dlookup (foldDistributions init maps start) key =
      match dlookup init key with
      | some seq =>
        some (seq ++ maps.map (fun m => (dlookup m key).getD Dist.noArrivals))
      | none =>
        if maps.any (fun m => hasKey m key) then
          some (List.replicate start Dist.noArrivals ++
            maps.map (fun m => (dlookup m key).getD Dist.noArrivals))
        else none := by
  induction maps generalizing init start with
  | nil => cases he : dlookup init key <;> simp [foldDistributions, he]
  | cons m rest ih =>
    have hm : (m.map Prod.fst).Nodup := hmaps m (List.mem_cons_self m rest)
    have hrest : ∀ m2 ∈ rest, (m2.map Prod.fst).Nodup :=
      fun m2 hm2 => hmaps m2 (List.mem_cons_of_mem m hm2)
    rw [foldDistributions,
      ih (updateDistributions init m (start + 1)) (start + 1)
        (length_updateDistributions init m start hm hinit) hrest]
    have hud := dlookup_updateDistributions init m start key hm hinit
    cases he : dlookup init key with
    | some seq =>
      cases hn : dlookup m key with
      | some v =>
        rw [he, hn] at hud
        rw [hud]
        simp [hn, List.append_assoc]
      | none =>
        rw [he, hn] at hud
        rw [hud]
        simp [hn, List.append_assoc]
    | none =>
      cases hn : dlookup m key with
      | some v =>
        rw [he, hn] at hud
        rw [hud]
        have hhk : hasKey m key = true := by
          rw [hasKey_eq_isSome, hn]; rfl
        simp [hn, hhk, List.append_assoc]
      | none =>
        rw [he, hn] at hud
        rw [hud]
        have hhk : hasKey m key = false := by
          rw [hasKey_eq_isSome, hn]; rfl
        by_cases hany : rest.any (fun m2 => hasKey m2 key)
        · simp only [List.any_cons, hhk, Bool.false_or, hany, if_pos]
          rw [List.replicate_succ']
          simp [hn, List.append_assoc]
        · simp only [List.any_cons, hhk, Bool.false_or]
          rw [if_neg (by simpa using hany), if_neg (by simpa using hany)]

theorem nodup_keys_foldDistributions (maps : List (List (String × Dist)))
    (init : List (String × List Dist)) (start : Nat)
    (hex : (init.map Prod.fst).Nodup) :
    ((foldDistributions init maps start).map Prod.fst).Nodup := by
  induction maps generalizing init start with
  | nil => exact hex
  | cons m rest ih =>
    rw [foldDistributions]
    exact ih _ _ (nodup_keys_updateDistributions init m (start + 1) hex)

/-! ## `parse_customers` characterization -/

/-- Totalised service value of a customer entry whose service
specification parses. -/
def serviceVal (c : Customer) : Dist :=
  match parseService c with
  | Except.ok d => d
  | Except.error _ => Dist.noArrivals

/-- Totalised connection value of a customer entry whose connection list
parses. -/
def connsVal (name : String) (c : Customer) : List Edge :=
  match parseConnsOf c name with
  | Except.ok l => l
  | Except.error _ => []

theorem parseCustomerLists_ok (name : String) (customers : List Customer)
    (r : List String × List Dist × List Dist × List (List Edge))
    (h : parseCustomerLists name customers = Except.ok r) :
    r.1 = customers.map classKey ∧
    r.2.1 = customers.map parseArrival ∧
    r.2.2.1 = customers.map serviceVal ∧
    r.2.2.2 = customers.map (connsVal name) ∧
    ∀ c ∈ customers, (∃ d, parseService c = Except.ok d) ∧
      ∃ l, parseConnsOf c name = Except.ok l := by
  induction customers generalizing r with
  | nil =>
    cases h
    simp
  | cons c rest ih =>
    rw [parseCustomerLists] at h
    cases hs : parseService c with
    | error e => rw [hs] at h; cases h
    | ok sv =>
      rw [hs] at h
      cases hc : parseConnsOf c name with
      | error e => rw [hc] at h; cases h
      | ok cn =>
        rw [hc] at h
        cases hr : parseCustomerLists name rest with
        | error e => rw [hr] at h; cases h
        | ok r2 =>
          rw [hr] at h
          cases h
          obtain ⟨h1, h2, h3, h4, h5⟩ := ih r2 hr
          refine ⟨by simp [h1], by simp [h2], ?_, ?_, ?_⟩
          · have hsv : serviceVal c = sv := by unfold serviceVal; rw [hs]
            simp [h3, hsv]
          · have hcn : connsVal name c = cn := by unfold connsVal; rw [hc]
            simp [h4, hcn]
          · intro c2 hc2
            rcases List.mem_cons.mp hc2 with h | h
            · subst h
              exact ⟨⟨sv, hs⟩, cn, hc⟩
            · exact h5 c2 h

theorem parseCustomerLists_ok_of_components (name : String)
    (customers : List Customer)
    (h : ∀ c ∈ customers, (∃ d, parseService c = Except.ok d) ∧
      ∃ l, parseConnsOf c name = Except.ok l) :
    ∃ r, parseCustomerLists name customers = Except.ok r := by
  induction customers with
  | nil => exact ⟨([], [], [], []), rfl⟩
  | cons c rest ih =>
    obtain ⟨⟨d, hd⟩, l, hl⟩ := h c (List.mem_cons_self c rest)
    obtain ⟨r2, hr2⟩ := ih (fun c2 hc2 => h c2 (List.mem_cons_of_mem c hc2))
    refine ⟨(classKey c :: r2.1, parseArrival c :: r2.2.1, d :: r2.2.2.1,
      l :: r2.2.2.2), ?_⟩
    rw [parseCustomerLists, hd, hl, hr2]

theorem parseCustomers_ok (customers : List Customer) (name : String)
    (sd : StationDists) (h : parseCustomers customers name = Except.ok sd) :
    ∃ r, parseCustomerLists name customers = Except.ok r ∧
      sd.arrival = dictZip r.1 r.2.1 ∧ sd.service = dictZip r.1 r.2.2.1 ∧
      sd.connections = dictZip r.1 r.2.2.2 := by
  unfold parseCustomers at h
  cases hr : parseCustomerLists name customers with
  | error e => rw [hr] at h; cases h
  | ok r =>
    rw [hr] at h
    cases h
    exact ⟨r, rfl, rfl, rfl, rfl⟩

theorem parseStation_ok (s : Station) (node : Node)
    (h : parseStation s = Except.ok node) :
    node.name = s.name ∧ node.capacity = s.capacity ∧
    node.servers = s.servers ∧
    ∃ sd, parseCustomers s.customers s.name = Except.ok sd ∧
      node.arrivals = sd.arrival ∧ node.service = sd.service ∧
      node.connections = sd.connections := by
  unfold parseStation at h
  cases hc : parseCustomers s.customers s.name with
  | error e => rw [hc] at h; cases h
  | ok sd =>
    rw [hc] at h
    cases h
    exact ⟨rfl, rfl, rfl, sd, rfl, rfl, rfl, rfl⟩

theorem any_map_pair_fst {α β : Type} (l : List α) (f : α → String)
    (g : α → β) (key : String) :
    (l.map (fun a => (f a, g a))).any (fun p => p.1 = key) =
      l.any (fun a => f a = key) := by
  induction l with
  | nil => rfl
  | cons a rest ih => simp [ih]

/-- A class key occurs in a parsed station's arrival (or service) dict
exactly when some customer entry at that station carries the class. -/
theorem hasKey_parseCustomers (customers : List Customer) (name : String)
    (sd : StationDists) (key : String)
    (h : parseCustomers customers name = Except.ok sd) :
    hasKey sd.arrival key = customers.any (fun c => classKey c = key) ∧
    hasKey sd.service key = customers.any (fun c => classKey c = key) := by
  obtain ⟨r, hr, ha, hs, _⟩ := parseCustomers_ok customers name sd h
  obtain ⟨h1, h2, h3, _, _⟩ := parseCustomerLists_ok name customers r hr
  constructor
  · rw [ha, hasKey_dictZip, h1, h2, List.zip_map']
    exact any_map_pair_fst customers classKey parseArrival key
  · rw [hs, hasKey_dictZip, h1, h3, List.zip_map']
    exact any_map_pair_fst customers classKey serviceVal key

theorem nodup_keys_parseCustomers (customers : List Customer) (name : String)
    (sd : StationDists) (h : parseCustomers customers name = Except.ok sd) :
    (sd.arrival.map Prod.fst).Nodup ∧ (sd.service.map Prod.fst).Nodup ∧
    (sd.connections.map Prod.fst).Nodup := by
  obtain ⟨r, _, ha, hs, hc⟩ := parseCustomers_ok customers name sd h
  exact ⟨ha ▸ nodup_keys_dictZip r.1 r.2.1, hs ▸ nodup_keys_dictZip r.1 r.2.2.1,
    hc ▸ nodup_keys_dictZip r.1 r.2.2.2⟩

/-! ## `mapME` lemmas -/

theorem mapME_length {α β : Type} (f : α → Except String β) (l : List α)
    (l2 : List β) (h : mapME f l = Except.ok l2) : l2.length = l.length := by
  induction l generalizing l2 with
  | nil => cases h; rfl
  | cons a rest ih =>
    rw [mapME] at h
    cases ha : f a with
    | error e => rw [ha] at h; cases h
    | ok b =>
      rw [ha] at h
      cases hr : mapME f rest with
      | error e => rw [hr] at h; cases h
      | ok bs =>
        rw [hr] at h
        cases h
        simp [ih bs hr]

theorem mapME_get? {α β : Type} (f : α → Except String β) (l : List α)
    (l2 : List β) (h : mapME f l = Except.ok l2) (i : Nat) (a : α)
    (ha : l.get? i = some a) :
    ∃ b, f a = Except.ok b ∧ l2.get? i = some b := by
  induction l generalizing l2 i with
  | nil => simp at ha
  | cons a0 rest ih =>
    rw [mapME] at h
    cases ha0 : f a0 with
    | error e => rw [ha0] at h; cases h
    | ok b0 =>
      rw [ha0] at h
      cases hr : mapME f rest with
      | error e => rw [hr] at h; cases h
      | ok bs =>
        rw [hr] at h
        cases h
        cases i with
        | zero =>
          cases ha
          exact ⟨b0, ha0, rfl⟩
        | succ j => exact ih bs hr j ha

theorem mapME_mem {α β : Type} (f : α → Except String β) (l : List α)
    (l2 : List β) (h : mapME f l = Except.ok l2) (b : β) (hb : b ∈ l2) :
    ∃ a ∈ l, f a = Except.ok b := by
  induction l generalizing l2 with
  | nil =>
    cases h
    cases hb
  | cons a0 rest ih =>
    rw [mapME] at h
    cases ha0 : f a0 with
    | error e => rw [ha0] at h; cases h
    | ok b0 =>
      rw [ha0] at h
      cases hr : mapME f rest with
      | error e => rw [hr] at h; cases h
      | ok bs =>
        rw [hr] at h
        cases h
        rcases List.mem_cons.mp hb with hb0 | hbs
        · exact ⟨a0, List.mem_cons_self a0 rest, hb0 ▸ ha0⟩
        · obtain ⟨a, hal, hab⟩ := ih bs hr hbs
          exact ⟨a, List.mem_cons_of_mem a0 hal, hab⟩

/-! ## `build_params` loop characterization -/

theorem buildLoop_ok (stations : List Station) (st st' : BuildState)
    (h : buildLoop stations st = Except.ok st') :
    ∃ nodes, mapME parseStation stations = Except.ok nodes ∧
      st'.currentNode = st.currentNode + stations.length ∧
      st'.arrivals =
        foldDistributions st.arrivals (nodes.map (fun n => n.arrivals))
          st.currentNode ∧
      st'.service =
        foldDistributions st.service (nodes.map (fun n => n.service))
          st.currentNode := by
  induction stations generalizing st with
  | nil =>
    cases h
    exact ⟨[], rfl, by simp, rfl, rfl⟩
  | cons s rest ih =>
    cases hp : parseStation s with
    | error e =>
      simp only [buildLoop, hp] at h
      exact Except.noConfusion h
    | ok node =>
      simp only [buildLoop, hp] at h
      by_cases hk : hasKey st.namesToNodes node.name = true
      · rw [if_pos hk] at h
        cases h
      · rw [if_neg hk] at h
        obtain ⟨nodes2, h1, h2, h3, h4⟩ := ih _ h
        refine ⟨node :: nodes2, by simp [mapME, hp, h1], ?_, h3, h4⟩
        have h2b : st'.currentNode = st.currentNode + 1 + rest.length := h2
        simp only [List.length_cons]
        omega

theorem buildLoop_dup_error (stations : List Station) (st : BuildState)
    (nodes : List Node)
    (hparse : mapME parseStation stations = Except.ok nodes)
    (hnd : (st.namesToNodes.map Prod.fst).Nodup)
    (hdup : ¬ (st.namesToNodes.map Prod.fst ++
      stations.map (fun s => s.name)).Nodup) :
    ∃ name, buildLoop stations st = Except.error (dupNameMsg name) := by
  induction stations generalizing st nodes with
  | nil =>
    simp only [List.map_nil, List.append_nil] at hdup
    exact absurd hnd hdup
  | cons s rest ih =>
    rw [mapME] at hparse
    cases hp : parseStation s with
    | error e => rw [hp] at hparse; cases hparse
    | ok node =>
      rw [hp] at hparse
      cases hr : mapME parseStation rest with
      | error e => rw [hr] at hparse; cases hparse
      | ok nodes2 =>
        have hname : node.name = s.name := (parseStation_ok s node hp).1
        simp only [buildLoop, hp]
        by_cases hk : hasKey st.namesToNodes node.name = true
        · exact ⟨node.name, by rw [if_pos hk]⟩
        · rw [if_neg hk]
          apply ih _ nodes2 hr
          · simp only [List.map_append, List.map_cons, List.map_nil]
            rw [nodup_append_singleton]
            refine ⟨hnd, fun hm => hk ((hasKey_iff_mem_keys _ _).mpr hm)⟩
          · intro hcontra
            apply hdup
            simp only [List.map_cons]
            simp only [List.map_append, List.map_cons, List.map_nil] at hcontra
            rw [List.append_assoc] at hcontra
            simpa [hname] using hcontra

theorem buildParams_ok_state (stations : List Station) (params : Params)
    (h : buildParams stations = Except.ok params) :
    ∃ st, buildLoop stations ⟨0, [], [], [], [], [], []⟩ = Except.ok st ∧
      params.arrivalDistributions = st.arrivals ∧
      params.serviceDistributions = st.service ∧
      params.numberOfNodes = stations.length := by
  cases hl : buildLoop stations ⟨0, [], [], [], [], [], []⟩ with
  | error e =>
    simp only [buildParams, hl] at h
    exact Except.noConfusion h
  | ok st =>
    simp only [buildParams, hl] at h
    cases hm : buildMatrices stations.length st.namesToNodes st.connections with
    | error e =>
      simp only [hm] at h
      exact Except.noConfusion h
    | ok ms =>
      simp only [hm] at h
      cases h
      exact ⟨st, rfl, rfl, rfl, rfl⟩

/-! ## Claims -/

/-- C1: the claim says every transition matrix built by `build_params` is
N×N even when a class's edges touch only a strict subset of the stations.
The code contradicts this: with 3 stations and a single class-1 edge from
"A" to "B", `Number_of_nodes` is 3 but the matrix rendered from the
networkx graph has dimension 2 (only the nodes incident to edges), so the
N×N guarantee fails; the explicit zero-edge branch of the same loop does
materialise an N×N matrix, showing the N×N intent. -/
theorem buildParams_matrix_dimension_not_numNodes :
    (buildParams [⟨"A", 10, 1, [⟨1, none, some "Exponential 5.0",
        some [⟨"B", 1/2⟩]⟩]⟩, ⟨"B", 5, 2, []⟩, ⟨"C", 5, 1, []⟩]).toOption.map
      (fun p => (p.numberOfNodes,
        (dlookup p.transitionMatrices "Class 1").map List.length)) =
    some (3, some 2) := by
  with_unfolding_all decide

/-- C2: the claim says two class-1 edges from "A" to "B" with
probabilities 0.3 and 0.2 yield matrix entry 0.5 (the sum). The code
contradicts this: `nx.DiGraph.add_edges_from` overwrites the weight of an
already present directed edge, so the entry is 0.2 (the last value), not
0.5 — even though the overflow check in `parse_connections` summed the
same two probabilities. -/
theorem buildParams_duplicate_edge_weight_overwritten :
    (buildParams [⟨"A", 10, 1, [⟨1, none, some "Exponential 5.0",
        some [⟨"B", 3/10⟩, ⟨"B", 1/5⟩]⟩]⟩, ⟨"B", 5, 2, []⟩]).toOption.map
      (fun p => dlookup p.transitionMatrices "Class 1") =
    some (some [[0, 1/5], [0, 0]]) := by
  with_unfolding_all decide

/-- C4: `parse_connections` fails with the probability-overflow error
naming the current station exactly when the summed probability strictly
exceeds 1; a total of at most 1 (in particular exactly 1) succeeds and
returns one edge record per target in input order. -/
theorem parseConnections_overflow_iff (conns : List Target) (name : String) :
    (parseConnections conns name = Except.error (probOverflowMsg name) ↔
      1 < (conns.map (fun c2 => c2.prob)).sum) ∧
    ((conns.map (fun c2 => c2.prob)).sum ≤ 1 →
      parseConnections conns name =
        Except.ok (conns.map (fun c2 => (name, c2.target, c2.prob)))) := by
  simp only [parseConnections]
  constructor
  · constructor
    · intro h
      by_cases hlt : 1 < (conns.map (fun c2 => c2.prob)).sum
      · exact hlt
      · rw [if_neg hlt] at h
        exact Except.noConfusion h
    · intro hlt
      rw [if_pos hlt]
  · intro h
    rw [if_neg (not_lt.mpr h)]

theorem parseConnections_overflow_iff_witness :
    parseConnections [⟨"B", 3/2⟩] "S" = Except.error (probOverflowMsg "S") ∧
    parseConnections [⟨"B", 1/2⟩, ⟨"C", 1/2⟩] "S" =
      Except.ok [("S", "B", 1/2), ("S", "C", 1/2)] :=
  ⟨(parseConnections_overflow_iff [⟨"B", 3/2⟩] "S").1.mpr
      (by with_unfolding_all decide),
    (parseConnections_overflow_iff [⟨"B", 1/2⟩, ⟨"C", 1/2⟩] "S").2
      (by with_unfolding_all decide)⟩

/-- C7 counterexample: the claim says any specification whose first token
is `NoArrivals` yields the sentinel regardless of arguments; but
`"NoArrivals 1.0"` hits the argument-count check (the registry requires 0
arguments) and raises instead. -/
theorem parseDistribution_noArrivals_args_error :
    parseDistribution "NoArrivals 1.0" =
      Except.error (argCountMsg "NoArrivals" 0 1) := by
  with_unfolding_all decide

/-- C7 amended: a specification whose token list is exactly
`["NoArrivals"]` (no arguments) returns the sentinel; if any argument
tokens follow `NoArrivals` the parse fails with an argument-count error
rather than returning the sentinel. -/
theorem parseDistribution_noArrivals_sentinel (s : String) :
    (splitSpace s = ["NoArrivals"] →
      parseDistribution s = Except.ok Dist.noArrivals) ∧
    (∀ t ts, splitSpace s = "NoArrivals" :: t :: ts →
      parseDistribution s =
        Except.error (argCountMsg "NoArrivals" 0 (t :: ts).length)) := by
  have hreg : dlookup distributions "NoArrivals" = some 0 := by decide
  constructor
  · intro h
    simp only [parseDistribution, h]
    with_unfolding_all decide
  · intro t ts h
    simp [parseDistribution, h, hreg]

theorem parseDistribution_noArrivals_sentinel_witness :
    parseDistribution "NoArrivals" = Except.ok Dist.noArrivals ∧
    (parseDistribution "NoArrivals 1.0").toOption = none := by
  refine ⟨(parseDistribution_noArrivals_sentinel "NoArrivals").1 (by decide), ?_⟩
  have h := (parseDistribution_noArrivals_sentinel "NoArrivals 1.0").2 "1.0" []
    (by decide)
  rw [h]
  rfl

/-- C10: `parse_connections` never checks an individual routing
probability against the range `[0, 1]`: whenever the list total is at
most 1 the parse succeeds and every probability — including a negative
one or one above 1 — is passed through unchanged into the edge records;
the concrete conjunct shows a negative probability surviving all the way
into the transition matrix built by `build_params`. -/
theorem parseConnections_no_range_check (conns : List Target) (name : String)
    (h : (conns.map (fun c2 => c2.prob)).sum ≤ 1) :
    parseConnections conns name =
      Except.ok (conns.map (fun c2 => (name, c2.target, c2.prob))) ∧
    (buildParams [⟨"A", 10, 1, [⟨1, none, some "Exponential 5.0",
        some [⟨"B", -(1/2)⟩]⟩]⟩, ⟨"B", 5, 2, []⟩]).toOption.map
      (fun p => dlookup p.transitionMatrices "Class 1") =
      some (some [[0, -(1/2)], [0, 0]]) := by
  constructor
  · simp only [parseConnections]
    rw [if_neg (not_lt.mpr h)]
  · with_unfolding_all decide

theorem parseConnections_no_range_check_witness :
    parseConnections [⟨"B", -(1/2)⟩, ⟨"C", 6/5⟩] "A" =
      Except.ok [("A", "B", -(1/2)), ("A", "C", 6/5)] :=
  (parseConnections_no_range_check [⟨"B", -(1/2)⟩, ⟨"C", 6/5⟩] "A"
    (by with_unfolding_all decide)).1

theorem nodup_station_maps (stations : List Station) (nodes : List Node)
    (hmap : mapME parseStation stations = Except.ok nodes) :
    (∀ m ∈ nodes.map (fun n => n.arrivals), (m.map Prod.fst).Nodup) ∧
    (∀ m ∈ nodes.map (fun n => n.service), (m.map Prod.fst).Nodup) := by
  constructor
  · intro m hm
    obtain ⟨node, hnode, rfl⟩ := List.mem_map.mp hm
    obtain ⟨s, _, hps⟩ := mapME_mem parseStation stations nodes hmap node hnode
    obtain ⟨_, _, _, sd, hsd, hA3, _, _⟩ := parseStation_ok s node hps
    rw [hA3]
    exact (nodup_keys_parseCustomers s.customers s.name sd hsd).1
  · intro m hm
    obtain ⟨node, hnode, rfl⟩ := List.mem_map.mp hm
    obtain ⟨s, _, hps⟩ := mapME_mem parseStation stations nodes hmap node hnode
    obtain ⟨_, _, _, sd, hsd, _, hS3, _⟩ := parseStation_ok s node hps
    rw [hS3]
    exact (nodup_keys_parseCustomers s.customers s.name sd hsd).2.1

/-- C3: one `update_distributions` call with current station index `k`,
when every sequence already present has length `k - 1` (and the dicts
have unique keys, as Python dicts do), returns a mapping whose sequences
all have length exactly `k`; consequently, after `build_params` folds in
all stations, every per-class arrival and service sequence has length
exactly `N`. -/
theorem updateDistributions_length_invariant
    (existing : List (String × List Dist)) (new : List (String × Dist))
    (k : Nat) (hk : 1 ≤ k)
    (hex : (existing.map Prod.fst).Nodup)
    (hnew : (new.map Prod.fst).Nodup)
    (hlen : ∀ p ∈ existing, p.2.length = k - 1) :
    (∀ p ∈ updateDistributions existing new k, p.2.length = k) ∧
    (∀ stations params, buildParams stations = Except.ok params →
      (∀ p ∈ params.arrivalDistributions, p.2.length = stations.length) ∧
      (∀ p ∈ params.serviceDistributions, p.2.length = stations.length)) := by
  constructor
  · obtain ⟨c, rfl⟩ : ∃ c, k = c + 1 := ⟨k - 1, by omega⟩
    intro p hp
    have hlen2 : ∀ k2 s2, dlookup existing k2 = some s2 → s2.length = c := by
      intro k2 s2 h2
      have := hlen (k2, s2) (dlookup_mem existing k2 s2 h2)
      simpa using this
    have hnd := nodup_keys_updateDistributions existing new (c + 1) hex
    have hdl := dlookup_of_mem _ p hnd hp
    exact length_updateDistributions existing new c hnew hlen2 p.1 p.2 hdl
  · intro stations params hok
    obtain ⟨st, hloop, hA, hS, hN⟩ := buildParams_ok_state stations params hok
    obtain ⟨nodes, hmap, hcn, hA2, hS2⟩ := buildLoop_ok stations _ st hloop
    have hlennodes : nodes.length = stations.length := mapME_length _ _ _ hmap
    have hinit : ∀ k2 s2, dlookup ([] : List (String × List Dist)) k2 = some s2 →
        s2.length = 0 := by
      intro k2 s2 h2
      rw [dlookup_nil] at h2
      cases h2
    have hndm := nodup_station_maps stations nodes hmap
    constructor
    · intro p hp
      rw [hA, hA2] at hp
      have hnd := nodup_keys_foldDistributions (nodes.map (fun n => n.arrivals))
        [] 0 (by simp)
      have hdl := dlookup_of_mem _ p hnd hp
      rw [dlookup_foldDistributions (nodes.map (fun n => n.arrivals)) [] 0 p.1
        hinit hndm.1] at hdl
      simp only [dlookup_nil] at hdl
      by_cases hany : (nodes.map (fun n => n.arrivals)).any
          (fun m => hasKey m p.1) = true
      · rw [if_pos hany] at hdl
        have hv := Option.some.inj hdl
        rw [← hv]
        simp [hlennodes]
      · rw [if_neg hany] at hdl
        exact Option.noConfusion hdl
    · intro p hp
      rw [hS, hS2] at hp
      have hnd := nodup_keys_foldDistributions (nodes.map (fun n => n.service))
        [] 0 (by simp)
      have hdl := dlookup_of_mem _ p hnd hp
      rw [dlookup_foldDistributions (nodes.map (fun n => n.service)) [] 0 p.1
        hinit hndm.2] at hdl
      simp only [dlookup_nil] at hdl
      by_cases hany : (nodes.map (fun n => n.service)).any
          (fun m => hasKey m p.1) = true
      · rw [if_pos hany] at hdl
        have hv := Option.some.inj hdl
        rw [← hv]
        simp [hlennodes]
      · rw [if_neg hany] at hdl
        exact Option.noConfusion hdl

theorem updateDistributions_length_invariant_witness :
    ((updateDistributions [("Class 1", [Dist.noArrivals])]
        [("Class 2", Dist.noArrivals)] 2).headD ("", [])).2.length = 2 :=
  (updateDistributions_length_invariant [("Class 1", [Dist.noArrivals])]
      [("Class 2", Dist.noArrivals)] 2 (by decide) (by decide) (by decide)
      (by decide)).1 _ (by decide)

/-- C5: for a customer entry, any failure parsing the arrival
specification (absent key or any parse error) is recovered locally by
substituting `NoArrivals` while the rest of the build proceeds
unaffected, whereas any failure parsing the service specification
(absent key or any parse error) aborts `parse_customers` with an
error. -/
theorem parseCustomers_arrival_recovered_service_fatal
    (c : Customer) (rest : List Customer) (name : String) :
    ((c.dist = none ∨ ∃ s e, c.dist = some s ∧
        parseDistribution s = Except.error e) →
      parseArrival c = Dist.noArrivals ∧
      ∀ d cn, parseService c = Except.ok d →
        parseConnsOf c name = Except.ok cn →
        parseCustomerLists name (c :: rest) =
          Except.map (fun r => (classKey c :: r.1, Dist.noArrivals :: r.2.1,
            d :: r.2.2.1, cn :: r.2.2.2)) (parseCustomerLists name rest)) ∧
    ((c.service = none ∨ ∃ s e, c.service = some s ∧
        parseDistribution s = Except.error e) →
      ∃ e2, parseCustomers (c :: rest) name = Except.error e2) := by
  constructor
  · intro harr
    have hA : parseArrival c = Dist.noArrivals := by
      rcases harr with h | ⟨s, e, hs, he⟩
      · simp [parseArrival, h]
      · simp [parseArrival, hs, he]
    refine ⟨hA, ?_⟩
    intro d cn hd hcn
    simp only [parseCustomerLists, hd, hcn, hA]
    cases hr : parseCustomerLists name rest with
    | error e => simp [Except.map]
    | ok r => simp [Except.map]
  · intro hserv
    have hP : ∃ e0, parseService c = Except.error e0 := by
      rcases hserv with h | ⟨s, e, hs, he⟩
      · exact ⟨keyErrMsg "service", by simp [parseService, h]⟩
      · exact ⟨e, by simp [parseService, hs, he]⟩
    obtain ⟨e0, he0⟩ := hP
    refine ⟨e0, ?_⟩
    simp only [parseCustomers, parseCustomerLists, he0]

theorem parseCustomers_arrival_recovered_service_fatal_witness :
    parseCustomerLists "A" [⟨1, some "Bogus 2", some "Exponential 5", none⟩] =
      Except.ok (["Class 1"], [Dist.noArrivals],
        [Dist.dist "Exponential" [5]], [[]]) ∧
    (parseCustomers [⟨2, none, some "Junk", none⟩] "A").toOption = none := by
  constructor
  · have h := (parseCustomers_arrival_recovered_service_fatal
        ⟨1, some "Bogus 2", some "Exponential 5", none⟩ [] "A").1
      (Or.inr ⟨"Bogus 2", unsupportedDistMsg "Bogus", rfl, by decide⟩)
    have h2 := h.2 (Dist.dist "Exponential" [5]) []
      (by with_unfolding_all decide) (by decide)
    exact h2.trans (by with_unfolding_all rfl)
  · obtain ⟨e2, he2⟩ := (parseCustomers_arrival_recovered_service_fatal
        ⟨2, none, some "Junk", none⟩ [] "A").2
      (Or.inr ⟨"Junk", unsupportedDistMsg "Junk", rfl, by decide⟩)
    rw [he2]
    rfl

/-- C8: if every station parses and some station name repeats an earlier
one, `build_params` fails during the per-station loop with the
duplicate-station-name error and no parameter model is returned. -/
theorem buildParams_duplicate_station_name
    (stations : List Station) (nodes : List Node)
    (hparse : mapME parseStation stations = Except.ok nodes)
    (hdup : ¬ (stations.map (fun s => s.name)).Nodup) :
    ∃ name, buildParams stations = Except.error (dupNameMsg name) ∧
      ∀ params, buildParams stations ≠ Except.ok params := by
  obtain ⟨n, herr⟩ := buildLoop_dup_error stations ⟨0, [], [], [], [], [], []⟩
    nodes hparse (by simp) (by simpa using hdup)
  refine ⟨n, ?_, ?_⟩
  · simp only [buildParams, herr]
  · intro params hp
    simp only [buildParams, herr] at hp
    exact Except.noConfusion hp

theorem buildParams_duplicate_station_name_witness :
    (buildParams [⟨"A", 1, 1, []⟩, ⟨"A", 2, 2, []⟩]).toOption = none := by
  obtain ⟨n, herr, _⟩ := buildParams_duplicate_station_name
    [⟨"A", 1, 1, []⟩, ⟨"A", 2, 2, []⟩]
    [⟨"A", 1, [], [], 1, []⟩, ⟨"A", 2, [], [], 2, []⟩]
    (by decide) (by decide)
  rw [herr]
  rfl

/-- C9: when customer entries at one station repeat a class identifier,
`parse_customers` raises no error and the later entry's parsed arrival,
service and connection values replace the earlier entry's values in all
three returned per-class mappings. -/
theorem parseCustomers_duplicate_class_last_wins
    (cs : List Customer) (c : Customer) (name : String)
    (hcomp : ∀ c2 ∈ cs ++ [c], (∃ d, parseService c2 = Except.ok d) ∧
      ∃ l, parseConnsOf c2 name = Except.ok l)
    (hdup : ∃ c2 ∈ cs, classKey c2 = classKey c) :
    (parseCustomers (cs ++ [c]) name).toOption.map (fun sd =>
      (dlookup sd.arrival (classKey c), dlookup sd.service (classKey c),
        dlookup sd.connections (classKey c))) =
      some (some (parseArrival c), some (serviceVal c),
        some (connsVal name c)) := by
  obtain ⟨r, hr⟩ := parseCustomerLists_ok_of_components name (cs ++ [c]) hcomp
  obtain ⟨h1, h2, h3, h4, _⟩ := parseCustomerLists_ok name (cs ++ [c]) r hr
  have hA : dlookup (dictZip r.1 r.2.1) (classKey c) =
      some (parseArrival c) := by
    rw [h1, h2, List.map_append, List.map_append]
    simp only [List.map_cons, List.map_nil]
    exact dlookup_dictZip_last (cs.map classKey) (cs.map parseArrival) _ _
      (by simp)
  have hS : dlookup (dictZip r.1 r.2.2.1) (classKey c) =
      some (serviceVal c) := by
    rw [h1, h3, List.map_append, List.map_append]
    simp only [List.map_cons, List.map_nil]
    exact dlookup_dictZip_last (cs.map classKey) (cs.map serviceVal) _ _
      (by simp)
  have hC : dlookup (dictZip r.1 r.2.2.2) (classKey c) =
      some (connsVal name c) := by
    rw [h1, h4, List.map_append, List.map_append]
    simp only [List.map_cons, List.map_nil]
    exact dlookup_dictZip_last (cs.map classKey) (cs.map (connsVal name)) _ _
      (by simp)
  simp only [parseCustomers, hr, Except.toOption, Option.map, hA, hS, hC]

theorem parseCustomers_duplicate_class_last_wins_witness :
    (parseCustomers [⟨1, none, some "Exponential 5", none⟩,
        ⟨1, none, some "Deterministic 1", none⟩] "A").toOption.map (fun sd =>
      (dlookup sd.arrival "Class 1", dlookup sd.service "Class 1",
        dlookup sd.connections "Class 1")) =
      some (some Dist.noArrivals, some (Dist.dist "Deterministic" [1]),
        some []) := by
  have h := parseCustomers_duplicate_class_last_wins
    [⟨1, none, some "Exponential 5", none⟩]
    ⟨1, none, some "Deterministic 1", none⟩ "A"
    (by
      intro c2 hc2
      have hm : c2 = (⟨1, none, some "Exponential 5", none⟩ : Customer) ∨
          c2 = (⟨1, none, some "Deterministic 1", none⟩ : Customer) := by
        simpa using hc2
      rcases hm with rfl | rfl
      · exact ⟨⟨Dist.dist "Exponential" [5], by with_unfolding_all decide⟩,
          [], by decide⟩
      · exact ⟨⟨Dist.dist "Deterministic" [1], by with_unfolding_all decide⟩,
          [], by decide⟩)
    ⟨⟨1, none, some "Exponential 5", none⟩, by simp, by decide⟩
  exact h.trans (by with_unfolding_all rfl)

/-- C6: when `build_params` succeeds, a class defined at some station but
absent from the customer entries of the station at (0-based) position `j`
has `NoArrivals` at position `j` (node index minus one) of both its
arrival and its service sequence, and both lookups succeed (the outer
`some`): no lookup error is possible for a class defined anywhere. -/
theorem absent_class_backfilled_noArrivals
    (stations : List Station) (params : Params) (key : String) (j : Nat)
    (sj : Station)
    (hok : buildParams stations = Except.ok params)
    (hj : stations.get? j = some sj)
    (habsent : ∀ c ∈ sj.customers, classKey c ≠ key)
    (hpresent : ∃ i si, stations.get? i = some si ∧
      ∃ c ∈ si.customers, classKey c = key) :
    (dlookup params.arrivalDistributions key).map (fun seq => seq.get? j) =
      some (some Dist.noArrivals) ∧
    (dlookup params.serviceDistributions key).map (fun seq => seq.get? j) =
      some (some Dist.noArrivals) := by
  obtain ⟨st, hloop, hA, hS, hN⟩ := buildParams_ok_state stations params hok
  obtain ⟨nodes, hmap, hcn, hA2, hS2⟩ := buildLoop_ok stations _ st hloop
  obtain ⟨nodej, hpj, hgj⟩ := mapME_get? parseStation stations nodes hmap j sj hj
  obtain ⟨_, _, _, sdj, hsdj, hAj, hSj, _⟩ := parseStation_ok sj nodej hpj
  have habs : sj.customers.any (fun c2 => classKey c2 = key) = false := by
    cases hx : sj.customers.any (fun c2 => classKey c2 = key) with
    | false => rfl
    | true =>
      obtain ⟨c2, hc2, hck⟩ := List.any_eq_true.mp hx
      exact absurd (by simpa using hck) (habsent c2 hc2)
  have hkeyA : hasKey nodej.arrivals key = false := by
    rw [hAj, (hasKey_parseCustomers sj.customers sj.name sdj key hsdj).1]
    exact habs
  have hkeyS : hasKey nodej.service key = false := by
    rw [hSj, (hasKey_parseCustomers sj.customers sj.name sdj key hsdj).2]
    exact habs
  obtain ⟨i, si, hi, c0, hc0, hck0⟩ := hpresent
  obtain ⟨nodei, hpi, hgi⟩ := mapME_get? parseStation stations nodes hmap i si hi
  obtain ⟨_, _, _, sdi, hsdi, hAi, hSi, _⟩ := parseStation_ok si nodei hpi
  have hpres : si.customers.any (fun c2 => classKey c2 = key) = true :=
    List.any_eq_true.mpr ⟨c0, hc0, by simp [hck0]⟩
  have hkeyAi : hasKey nodei.arrivals key = true := by
    rw [hAi, (hasKey_parseCustomers si.customers si.name sdi key hsdi).1]
    exact hpres
  have hkeySi : hasKey nodei.service key = true := by
    rw [hSi, (hasKey_parseCustomers si.customers si.name sdi key hsdi).2]
    exact hpres
  have hinit : ∀ k2 s2, dlookup ([] : List (String × List Dist)) k2 = some s2 →
      s2.length = 0 := by
    intro k2 s2 h2
    rw [dlookup_nil] at h2
    cases h2
  have hndm := nodup_station_maps stations nodes hmap
  have hmemi : nodei ∈ nodes := List.get?_mem hgi
  constructor
  · have hanyA : (nodes.map (fun n => n.arrivals)).any
        (fun m => hasKey m key) = true :=
      List.any_eq_true.mpr ⟨nodei.arrivals,
        List.mem_map_of_mem _ hmemi, by simp [hkeyAi]⟩
    have hchar := dlookup_foldDistributions (nodes.map (fun n => n.arrivals))
      [] 0 key hinit hndm.1
    simp only [dlookup_nil] at hchar
    rw [if_pos hanyA] at hchar
    rw [hA, hA2, hchar]
    simp only [Option.map_some', List.replicate, List.nil_append, List.map_map]
    rw [List.get?_map, hgj]
    simp [Function.comp, dlookup_eq_none_of_hasKey_false _ _ hkeyA]
  · have hanyS : (nodes.map (fun n => n.service)).any
        (fun m => hasKey m key) = true :=
      List.any_eq_true.mpr ⟨nodei.service,
        List.mem_map_of_mem _ hmemi, by simp [hkeySi]⟩
    have hchar := dlookup_foldDistributions (nodes.map (fun n => n.service))
      [] 0 key hinit hndm.2
    simp only [dlookup_nil] at hchar
    rw [if_pos hanyS] at hchar
    rw [hS, hS2, hchar]
    simp only [Option.map_some', List.replicate, List.nil_append, List.map_map]
    rw [List.get?_map, hgj]
    simp [Function.comp, dlookup_eq_none_of_hasKey_false _ _ hkeyS]

theorem absent_class_backfilled_noArrivals_witness :
    (buildParams [⟨"A", 10, 1, [⟨1, none, some "Exponential 5", none⟩]⟩,
        ⟨"B", 5, 1, []⟩]).toOption.map (fun p =>
      ((dlookup p.arrivalDistributions "Class 1").map (fun seq => seq.get? 1),
        (dlookup p.serviceDistributions "Class 1").map
          (fun seq => seq.get? 1))) =
      some (some (some Dist.noArrivals), some (some Dist.noArrivals)) := by
  cases hok : buildParams [⟨"A", 10, 1, [⟨1, none, some "Exponential 5",
      none⟩]⟩, ⟨"B", 5, 1, []⟩] with
  | error e =>
    have hsome : (buildParams [⟨"A", 10, 1, [⟨1, none, some "Exponential 5",
        none⟩]⟩, ⟨"B", 5, 1, []⟩]).toOption.isSome = true := by
      with_unfolding_all decide
    rw [hok] at hsome
    exact absurd hsome (by simp [Except.toOption])
  | ok p =>
    have h := absent_class_backfilled_noArrivals
      [⟨"A", 10, 1, [⟨1, none, some "Exponential 5", none⟩]⟩, ⟨"B", 5, 1, []⟩]
      p "Class 1" 1 ⟨"B", 5, 1, []⟩ hok rfl
      (by intro c2 hc2; exact absurd hc2 (List.not_mem_nil c2))
      ⟨0, ⟨"A", 10, 1, [⟨1, none, some "Exponential 5", none⟩]⟩, rfl,
        ⟨1, none, some "Exponential 5", none⟩, by simp, by decide⟩
    simp only [Except.toOption, Option.map_some']
    rw [h.1, h.2]

end CiwControl
